import Mathlib

/-!
# Envelope nodes of the scriptnode DSP library (EnvelopeNodes.h)

A shallow embedding of the gate tracker, the modulation post-processor, the
gate follower (simple_ar) and the gate transition of the shaped envelope
(ahdsr), together with the properties established about them.

Conventions of the embedding:

* C++ int values are integers; the result of every int operation is
  reduced to the 32-bit two's-complement range by wrapInt32.
* float and double values are exact rationals: comparisons, subtraction,
  absolute value and multiplication are the exact ones, and the rounding of
  the results of float arithmetic is not represented. The conversion of a
  float to double is the identity; the conversion (float) of a double is
  toFloat, the rounding to the nearest single-precision value, ties to
  even.
* Reference parameters and member fields are passed in and returned.
-/

namespace EnvelopeNodes

/-! ## Voice gate tracker (envelope_base::handleKeyEvent) -/

/-- Largest value of a C++ int. -/
def INT_MAX : Int := 2147483647

/-- Reduction of an integer to the 32-bit two's-complement range. -/
def wrapInt32 (x : Int) : Int := (x + 2147483648) % 4294967296 - 2147483648

/-- The juce maximum of two ints. -/
def jmax (a b : Int) : Int := if a < b then b else a

/-- What handleKeyEvent looks at in an event: whether it is a note-on, a
note-off, or any other event (controller, pitch wheel, ...). -/
inductive HiseEvent where
  | noteOn
  | noteOff
  | other
  deriving DecidableEq, Repr

/-- HiseEvent::isNoteOn. -/
def HiseEvent.isNoteOn : HiseEvent → Bool
  | .noteOn => true
  | _ => false

/-- HiseEvent::isNoteOff. -/
def HiseEvent.isNoteOff : HiseEvent → Bool
  | .noteOff => true
  | _ => false

/-- HiseEvent::isNoteOnOrOff. -/
def HiseEvent.isNoteOnOrOff (e : HiseEvent) : Bool := e.isNoteOn || e.isNoteOff

/-- Outcome of handleKeyEvent: the member numKeys after the call, the
reference parameter newValue after the call, and the returned bool. -/
structure KeyResult where
  numKeys : Int
  newValue : Bool
  ret : Bool
  deriving DecidableEq, Repr

/-- The function envelope_base::handleKeyEvent, on the member numKeys and the
reference parameter newValue. -/
def handleKeyEvent (numKeys : Int) (e : HiseEvent) (newValue : Bool) : KeyResult :=
  if e.isNoteOn then
    let numKeys1 := wrapInt32 (numKeys + 1)
    { numKeys := numKeys1, newValue := true, ret := decide (numKeys1 = 1) }
  else if e.isNoteOff then
    let numKeys1 := jmax 0 (wrapInt32 (numKeys - 1))
    { numKeys := numKeys1, newValue := false, ret := decide (numKeys1 = 0) }
  else
    { numKeys := numKeys, newValue := newValue, ret := false }

/-- Feeding a sequence of events to handleKeyEvent, one call per event: the
final numKeys and, per event, the pair (returned bool, newValue). -/
def runKeyEvents (numKeys : Int) (newValue : Bool) : List HiseEvent → Int × List (Bool × Bool)
  | [] => (numKeys, [])
  | e :: es =>
    let r := handleKeyEvent numKeys e newValue
    let rest := runKeyEvents r.numKeys r.newValue es
    (rest.1, (r.ret, r.newValue) :: rest.2)

/-- Note-ons minus note-offs of an event sequence. -/
def balance (evs : List HiseEvent) : Int :=
  (evs.count HiseEvent.noteOn : Int) - (evs.count HiseEvent.noteOff : Int)

/-! ## Modulation post-processor (envelope_base::postProcess) -/

/-- One call getParameter().call<index>(value) on the parameter list of the
node: index 0 is the modulation value output, index 1 the activity output. -/
structure ParameterCall where
  index : Nat
  value : ℚ
  deriving DecidableEq, Repr

/-- The conversion (double)(int)b of a bool. -/
def boolToDouble (b : Bool) : ℚ := if b then 1 else 0

/-- The function envelope_base::postProcess. The generator t is read through
t.isActive() and t.getModValue(), given here as isActive and getModValue; the
result is the sequence of parameter calls made, in call order. -/
def postProcess (isActive : Bool) (getModValue : ℚ) (wasActive : Bool) (lastValue : ℚ) :
    List ParameterCall :=
  let thisActive := isActive
  let calls1 : List ParameterCall :=
    if thisActive then
      let mv := getModValue
      if mv ≠ lastValue then [{ index := 0, value := mv }] else []
    else []
  let calls2 : List ParameterCall :=
    if thisActive ≠ wasActive then
      [{ index := 1, value := boolToDouble thisActive }, { index := 0, value := 0 }]
    else []
  calls1 ++ calls2

/-! ## Gate follower (simple_ar_base::State, simple_ar_impl) -/

/-- The per-voice record simple_ar_base::State. The member env, an
EnvelopeFollower::AttackRelease whose class is declared outside this file, is
a value of an arbitrary type of filter states. -/
structure State (σ : Type) where
  env : σ
  targetValue : ℚ
  lastValue : ℚ
  active : Bool
  smoothing : Bool

/-- The record built by the default member initialisers of State, around a
given filter. -/
def State.init {σ : Type} (env : σ) : State σ :=
  { env := env, targetValue := 0, lastValue := 0, active := false, smoothing := false }

/-- The method env.calculateValue(input) of the filter: the filter after the
call and the returned value. Its body is outside this file, so it is a
parameter of everything that ticks. -/
abbrev CalculateValue (σ : Type) := σ → ℚ → σ × ℚ

/-- The method State::tick: the record after the call and the returned
value. -/
def State.tick {σ : Type} (calculateValue : CalculateValue σ) (s : State σ) : State σ × ℚ :=
  if !s.smoothing then
    (s, s.targetValue)
  else
    let r := calculateValue s.env s.targetValue
    let lastValue1 := r.2
    let smoothing1 := decide (|s.targetValue - lastValue1| > 1 / 10000)
    let active1 := smoothing1 || decide (s.targetValue = 1)
    ({ env := r.1, targetValue := s.targetValue, lastValue := lastValue1,
       active := active1, smoothing := smoothing1 }, lastValue1)

/-- The method State::setGate. -/
def State.setGate {σ : Type} (s : State σ) (isOn : Bool) : State σ :=
  { s with targetValue := if isOn then 1 else 0, smoothing := true }

/-- The calls a client makes on a record while the gate is held on: tick(), or
setGate(true) again. -/
inductive HeldOp where
  | tick
  | gateOn
  deriving DecidableEq, Repr

/-- Running a sequence of held-gate calls on a record. -/
def runHeld {σ : Type} (calculateValue : CalculateValue σ) (s : State σ) : List HeldOp → State σ
  | [] => s
  | HeldOp.tick :: ops => runHeld calculateValue (s.tick calculateValue).1 ops
  | HeldOp.gateOn :: ops => runHeld calculateValue (s.setGate true) ops

/-- The node simple_ar_impl: the key counter of envelope_base, the per-voice
records (PolyData<State, NumVoices>); isPolyphonic is NumVoices > 1. The
display values written by setDisplayValue are not represented. -/
structure simple_ar_impl (σ : Type) where
  isPolyphonic : Bool
  numKeys : Int
  states : List (State σ)

/-- The method simple_ar_impl::setGate. -/
def simple_ar_impl.setGate {σ : Type} (node : simple_ar_impl σ) (v : ℚ) : simple_ar_impl σ :=
  let a := decide (v > 1 / 2)
  { node with states := node.states.map (fun s => s.setGate a) }

/-- The method simple_ar_impl::handleHiseEvent. The local bool value is not
initialised in the source; its content before handleKeyEvent writes it is the
argument value0. -/
def simple_ar_impl.handleHiseEvent {σ : Type} (node : simple_ar_impl σ) (e : HiseEvent)
    (value0 : Bool) : simple_ar_impl σ :=
  if node.isPolyphonic then
    if e.isNoteOnOrOff then node.setGate (if e.isNoteOn then 1 else 0) else node
  else
    let r := handleKeyEvent node.numKeys e value0
    let node1 := { node with numKeys := r.numKeys }
    if r.ret then node1.setGate (if r.newValue then 1 else 0) else node1

/-- A block of audio (ProcessData): its channels, each a sequence of
samples. -/
structure ProcessData where
  channels : List (List ℚ)
  deriving DecidableEq, Repr

/-- ProcessData::getNumChannels. -/
def ProcessData.getNumChannels (d : ProcessData) : Nat := d.channels.length

/-- The frame view d.as<ProcessData<2>>().toFrameData(): frame i holds sample i
of channel 0 and sample i of channel 1. -/
def ProcessData.toFrameData (d : ProcessData) : List (ℚ × ℚ) :=
  List.zip (d.channels.getD 0 []) (d.channels.getD 1 [])

/-- Writing the frames of the frame view back to channels 0 and 1 (in the
source the frames alias the channel data). -/
def ProcessData.fromFrameData (d : ProcessData) (fd : List (ℚ × ℚ)) : ProcessData :=
  { channels := fd.map Prod.fst :: fd.map Prod.snd :: d.channels.drop 2 }

/-- The loop over one channel, v *= s.tick() for each sample v. -/
def processChannel {σ : Type} (calculateValue : CalculateValue σ) (s : State σ) :
    List ℚ → State σ × List ℚ
  | [] => (s, [])
  | v :: vs =>
    let r := s.tick calculateValue
    let rest := processChannel calculateValue r.1 vs
    (rest.1, v * r.2 :: rest.2)

/-- The loop over the frames, modValue = s.tick() and then v *= modValue for
both samples v of the frame. -/
def processFrames {σ : Type} (calculateValue : CalculateValue σ) (s : State σ) :
    List (ℚ × ℚ) → State σ × List (ℚ × ℚ)
  | [] => (s, [])
  | f :: fs =>
    let r := s.tick calculateValue
    let modValue := r.2
    let rest := processFrames calculateValue r.1 fs
    (rest.1, (f.1 * modValue, f.2 * modValue) :: rest.2)

/-- Outcome of a processing call: the record of the current voice, the audio
data, and the parameter calls made by postProcess. -/
structure ProcessResult (σ : Type) (δ : Type) where
  state : State σ
  data : δ
  calls : List ParameterCall

/-- The method simple_ar_impl::process on the record s of the current voice
(states.get()). -/
def simple_ar_impl.process {σ : Type} (calculateValue : CalculateValue σ) (s : State σ)
    (d : ProcessData) : ProcessResult σ ProcessData :=
  let thisActive := s.active
  let thisValue := s.lastValue
  if d.getNumChannels = 1 then
    let r := processChannel calculateValue s (d.channels.getD 0 [])
    { state := r.1, data := { channels := [r.2] },
      calls := postProcess r.1.active r.1.lastValue thisActive thisValue }
  else
    let r := processFrames calculateValue s d.toFrameData
    { state := r.1, data := d.fromFrameData r.2,
      calls := postProcess r.1.active r.1.lastValue thisActive thisValue }

/-- The method simple_ar_impl::processFrame on the record s of the current
voice; the frame d is the sequence of its channel samples. -/
def simple_ar_impl.processFrame {σ : Type} (calculateValue : CalculateValue σ) (s : State σ)
    (d : List ℚ) : ProcessResult σ (List ℚ) :=
  let thisActive := s.active
  let thisValue := s.lastValue
  let r := s.tick calculateValue
  let modValue := r.2
  { state := r.1, data := d.map (fun v => v * modValue),
    calls := postProcess r.1.active r.1.lastValue thisActive thisValue }

/-- The reference definition of tick, written from its description: without
smoothing the target is returned and the record is left as it is; with
smoothing the filter is stepped toward the target to obtain v, v is stored as
lastValue, smoothing becomes whether |target - v| exceeds 0.0001, active becomes
the new smoothing or target == 1.0, and v is returned. -/
def tickReference {σ : Type} (calculateValue : CalculateValue σ) (s : State σ) : State σ × ℚ :=
  match s.smoothing with
  | false => (s, s.targetValue)
  | true =>
    let v := (calculateValue s.env s.targetValue).2
    let newSmoothing : Bool := decide (1 / 10000 < |s.targetValue - v|)
    ({ env := (calculateValue s.env s.targetValue).1,
       targetValue := s.targetValue,
       lastValue := v,
       active := newSmoothing || decide (s.targetValue = 1),
       smoothing := newSmoothing }, v)

/-- The method simple_ar_impl::getModValue on the record of the current
voice. -/
def simple_ar_impl.getModValue {σ : Type} (s : State σ) : ℚ := s.lastValue

/-- The method simple_ar_impl::isActive on the record of the current voice. -/
def simple_ar_impl.isActive {σ : Type} (s : State σ) : Bool := s.active

/-- Calling tick() n times in succession on a record: the record after the
last call and the returned values, in call order. -/
def ticks {σ : Type} (calculateValue : CalculateValue σ) (s : State σ) :
    Nat → State σ × List ℚ
  | 0 => (s, [])
  | n + 1 =>
    let r := s.tick calculateValue
    let rest := ticks calculateValue r.1 n
    (rest.1, r.2 :: rest.2)

/-- ProcessData::getNumSamples: the number of samples of the block, which is
the length of each of its channels. -/
def ProcessData.getNumSamples (d : ProcessData) : Nat := (d.channels.getD 0 []).length

/-- Frame i of a block: sample i of every channel, in channel order. -/
def ProcessData.frame (d : ProcessData) (i : Nat) : List ℚ :=
  d.channels.map (fun c => c.getD i 0)

/-- The frames of a block, in sample order. -/
def ProcessData.frames (d : ProcessData) : List (List ℚ) :=
  (List.range d.getNumSamples).map d.frame

/-- Calling simple_ar_impl::processFrame once per frame, in order, on the
record of the current voice: the record after the last call and the frames
after their calls. -/
def runProcessFrame {σ : Type} (calculateValue : CalculateValue σ) (s : State σ) :
    List (List ℚ) → State σ × List (List ℚ)
  | [] => (s, [])
  | f :: fs =>
    let r := simple_ar_impl.processFrame calculateValue s f
    let rest := runProcessFrame calculateValue r.state fs
    (rest.1, r.data :: rest.2)

/-- The calls that change a record: tick() and setGate(on). -/
inductive GateOp where
  | tick
  | setGate (isOn : Bool)
  deriving DecidableEq, Repr

/-- Running a sequence of tick and setGate calls on a record. -/
def runOps {σ : Type} (calculateValue : CalculateValue σ) (s : State σ) : List GateOp → State σ
  | [] => s
  | GateOp.tick :: ops => runOps calculateValue (s.tick calculateValue).1 ops
  | GateOp.setGate isOn :: ops => runOps calculateValue (s.setGate isOn) ops

/-- The gate held after a sequence of calls: the argument of the last
setGate call, or the gate g held before when there is none. -/
def heldGate (g : Bool) : List GateOp → Bool
  | [] => g
  | GateOp.tick :: ops => heldGate g ops
  | GateOp.setGate isOn :: ops => heldGate isOn ops

/-! ## Shaped envelope (ahdsr): the gate parameter -/

/-- The enumeration ahdsr_base::state_base::EnvelopeState. -/
inductive EnvelopeState where
  | ATTACK
  | HOLD
  | DECAY
  | SUSTAIN
  | RETRIGGER
  | RELEASE
  | IDLE
  deriving DecidableEq, Repr

/-- The per-voice record ahdsr_base::state_base, without the pointer to the
owning envelope. -/
structure state_base where
  holdCounter : Int
  current_value : ℚ
  leftOverSamplesFromLastBuffer : Int
  modValues : List ℚ
  attackTime : ℚ
  attackLevel : ℚ
  attackCoef : ℚ
  attackBase : ℚ
  decayTime : ℚ
  decayCoef : ℚ
  decayBase : ℚ
  releaseTime : ℚ
  releaseCoef : ℚ
  releaseBase : ℚ
  release_delta : ℚ
  lastSustainValue : ℚ
  active : Bool
  current_state : EnvelopeState
  deriving DecidableEq, Repr

/-- The node ahdsr, as far as the gate parameter touches it: the display
values uiValues of ahdsr_base and the per-voice records. -/
structure ahdsr where
  uiValues : List ℚ
  states : List state_base
  deriving DecidableEq, Repr

/-- Index of the parameter Gate in ahdsr::Parameters. -/
def Parameters.Gate : Nat := 7

/-- Rounding of a rational to the nearest integer, a tie going to the even
one. -/
def roundHalfEven (x : ℚ) : Int :=
  if x - ⌊x⌋ < 1 / 2 then ⌊x⌋
  else if 1 / 2 < x - ⌊x⌋ then ⌊x⌋ + 1
  else if ⌊x⌋ % 2 = 0 then ⌊x⌋ else ⌊x⌋ + 1

/-- The binary exponent at which a single-precision float holds x: the
exponent of the power of two at or below |x|, and -126 (the exponent of the
subnormals) below the smallest normal float. -/
def floatExponent (x : ℚ) : Int := max (Int.log 2 |x|) (-126)

/-- The conversion (float)value of a double: the nearest value with a 24-bit
significand at the exponent of value (IEEE 754 binary32, round to nearest, ties
to even). A value beyond the largest float, which the conversion turns into an
infinity, is rounded the same way; it compares with 0.5 as the infinity
does. -/
def toFloat (value : ℚ) : ℚ :=
  if value = 0 then 0
  else roundHalfEven (value / 2 ^ (floatExponent value - 23)) * 2 ^ (floatExponent value - 23)

/-- A per-voice record at rest: state IDLE, value 0, the time modulation
values at the 0.5 the constructor of ahdsr writes. -/
def state_base.atRest : state_base :=
  { holdCounter := 0, current_value := 0, leftOverSamplesFromLastBuffer := 0,
    modValues := [1 / 2, 0, 1 / 2, 0, 1 / 2],
    attackTime := 0, attackLevel := 0, attackCoef := 0, attackBase := 0,
    decayTime := 0, decayCoef := 0, decayBase := 0,
    releaseTime := 0, releaseCoef := 0, releaseBase := 0, release_delta := 0,
    lastSustainValue := 0, active := false, current_state := EnvelopeState.IDLE }

/-- The method ahdsr_base::setDisplayValue; gainToDecibels is the function
Decibels::gainToDecibels, whose body is outside this file. The message to the
ring buffer is not represented. -/
def ahdsr.setDisplayValue (gainToDecibels : ℚ → ℚ) (node : ahdsr) (index : Nat) (value : ℚ) :
    ahdsr :=
  let value1 := if index = 1 ∨ index = 4 then gainToDecibels value else value
  { node with uiValues := node.uiValues.set index value1 }

/-- The body of the loop of ahdsr::setParameter for the case Parameters::Gate,
on one per-voice record. -/
def setGateOnState (v : ℚ) (s : state_base) : state_base :=
  let isOn := decide (v > 1 / 2)
  let s1 : state_base :=
    if isOn then
      if s.current_state = EnvelopeState.IDLE then
        { s with current_state := EnvelopeState.ATTACK }
      else
        { s with current_state := EnvelopeState.RETRIGGER }
    else s
  if !isOn && decide (s1.current_state ≠ EnvelopeState.IDLE) then
    { s1 with current_state := EnvelopeState.RELEASE }
  else s1

/-- The method ahdsr::setParameter<Parameters::Gate>. -/
def ahdsr.setParameterGate (gainToDecibels : ℚ → ℚ) (node : ahdsr) (value : ℚ) : ahdsr :=
  let v := toFloat value
  let node1 := node.setDisplayValue gainToDecibels Parameters.Gate v
  { node1 with states := node1.states.map (setGateOnState v) }

/-! ### Lemmas on the gate tracker -/

lemma wrapInt32_of_range (x : Int) (h0 : -2147483648 ≤ x) (h1 : x ≤ 2147483647) :
    wrapInt32 x = x := by
  unfold wrapInt32
  omega

lemma handleKeyEvent_noteOn_eq (n : Int) (nv : Bool) (h0 : 0 ≤ n) (h1 : n < INT_MAX) :
    handleKeyEvent n HiseEvent.noteOn nv
      = { numKeys := n + 1, newValue := true, ret := decide (n = 0) } := by
  unfold INT_MAX at h1
  have hw : wrapInt32 (n + 1) = n + 1 := wrapInt32_of_range _ (by omega) (by omega)
  simp only [handleKeyEvent, HiseEvent.isNoteOn, hw, if_true]
  congr 1
  simp

lemma handleKeyEvent_noteOff_eq (n : Int) (nv : Bool) (h0 : 1 ≤ n) (h1 : n ≤ INT_MAX) :
    handleKeyEvent n HiseEvent.noteOff nv
      = { numKeys := n - 1, newValue := false, ret := decide (n = 1) } := by
  unfold INT_MAX at h1
  have hw : wrapInt32 (n - 1) = n - 1 := wrapInt32_of_range _ (by omega) (by omega)
  have hj : jmax 0 (n - 1) = n - 1 := by
    unfold jmax
    split_ifs <;> omega
  simp only [handleKeyEvent, HiseEvent.isNoteOn, HiseEvent.isNoteOff, hw, hj, if_true]
  simp only [Bool.false_eq_true, if_false]
  congr 1
  simp only [decide_eq_decide]
  omega

lemma handleKeyEvent_other_eq (n : Int) (nv : Bool) :
    handleKeyEvent n HiseEvent.other nv = { numKeys := n, newValue := nv, ret := false } := by
  simp [handleKeyEvent, HiseEvent.isNoteOn, HiseEvent.isNoteOff]

lemma balance_nil : balance [] = 0 := by
  simp [balance]

lemma balance_cons (e : HiseEvent) (es : List HiseEvent) :
    balance (e :: es) = balance [e] + balance es := by
  cases e <;> simp [balance, List.count_cons] <;> omega

lemma balance_noteOn : balance [HiseEvent.noteOn] = 1 := by
  simp [balance]

lemma balance_noteOff : balance [HiseEvent.noteOff] = -1 := by
  simp [balance]

/-- The events after the first gate-on: while every proper prefix keeps the
count between 1 and INT_MAX and the whole sequence brings it to 0, only the
last call returns true, with newValue false. -/
lemma runKeyEvents_tail (evs : List HiseEvent) :
    ∀ (c : Int) (nv : Bool), evs ≠ [] →
      (∀ e ∈ evs, e ≠ HiseEvent.other) →
      (∀ k, k < evs.length → 1 ≤ c + balance (evs.take k) ∧ c + balance (evs.take k) ≤ INT_MAX) →
      c + balance evs = 0 →
      (runKeyEvents c nv evs).1 = 0 ∧
        ∃ mid, (runKeyEvents c nv evs).2 = mid ++ [(true, false)] ∧ ∀ p ∈ mid, p.1 = false := by
  induction evs with
  | nil => intro c nv h; exact absurd rfl h
  | cons e es ih =>
    intro c nv _ hno hpre hbal
    have h0 := hpre 0 (by simp)
    simp only [List.take_zero, balance_nil, add_zero] at h0
    by_cases hes : es = []
    · subst hes
      have he : e = HiseEvent.noteOff := by
        cases e
        · rw [balance_noteOn] at hbal; omega
        · rfl
        · exact absurd rfl (hno HiseEvent.other (by simp))
      subst he
      rw [balance_noteOff] at hbal
      have hc : c = 1 := by omega
      subst hc
      refine ⟨?_, [], ?_, ?_⟩
      · simp [runKeyEvents, handleKeyEvent_noteOff_eq 1 nv (by decide) (by decide)]
      · simp [runKeyEvents, handleKeyEvent_noteOff_eq 1 nv (by decide) (by decide)]
      · intro p hp; simp at hp
    · have hlen : 1 < (e :: es).length := by
        cases es with
        | nil => exact absurd rfl hes
        | cons a l => simp
      have h1 := hpre 1 hlen
      simp only [List.take_succ_cons, List.take_zero] at h1
      have hstep : ∃ nv1, handleKeyEvent c e nv
          = { numKeys := c + balance [e], newValue := nv1, ret := false } := by
        cases e
        · rw [balance_noteOn] at h1 ⊢
          refine ⟨true, ?_⟩
          rw [handleKeyEvent_noteOn_eq c nv (by omega) (by omega)]
          congr 1
          simp only [decide_eq_false_iff_not]
          omega
        · rw [balance_noteOff] at h1 ⊢
          refine ⟨false, ?_⟩
          rw [handleKeyEvent_noteOff_eq c nv (by omega) h0.2]
          congr 1
          simp only [decide_eq_false_iff_not]
          omega
        · exact absurd rfl (hno HiseEvent.other (by simp))
      obtain ⟨nv1, hk⟩ := hstep
      have hrec := ih (c + balance [e]) nv1 hes
        (fun x hx => hno x (List.mem_cons_of_mem _ hx))
        (fun k hk2 => by
          have := hpre (k + 1) (by simpa using hk2)
          rw [List.take_succ_cons, balance_cons] at this
          constructor <;> omega)
        (by rw [balance_cons] at hbal; omega)
      obtain ⟨hfin, mid, hmid, hall⟩ := hrec
      refine ⟨?_, (false, nv1) :: mid, ?_, ?_⟩
      · simp only [runKeyEvents, hk]
        exact hfin
      · simp only [runKeyEvents, hk, hmid, List.cons_append]
      · intro p hp
        rcases List.mem_cons.mp hp with h | h
        · rw [h]
        · exact hall p h

/-! ### Lemmas on the gate follower -/

lemma State.tick_of_not_smoothing {σ : Type} (calculateValue : CalculateValue σ) (s : State σ)
    (h : s.smoothing = false) : s.tick calculateValue = (s, s.targetValue) := by
  simp [State.tick, h]

lemma processChannel_of_not_smoothing {σ : Type} (calculateValue : CalculateValue σ)
    (s : State σ) (h : s.smoothing = false) (vs : List ℚ) :
    (processChannel calculateValue s vs).1 = s := by
  induction vs with
  | nil => rfl
  | cons v vs ih =>
    simp only [processChannel, State.tick_of_not_smoothing calculateValue s h]
    exact ih

lemma processFrames_of_not_smoothing {σ : Type} (calculateValue : CalculateValue σ)
    (s : State σ) (h : s.smoothing = false) (fs : List (ℚ × ℚ)) :
    (processFrames calculateValue s fs).1 = s := by
  induction fs with
  | nil => rfl
  | cons f fs ih =>
    simp only [processFrames, State.tick_of_not_smoothing calculateValue s h]
    exact ih

lemma postProcess_same (a : Bool) (mv : ℚ) : postProcess a mv a mv = [] := by
  simp [postProcess]

/-- A tick on a record whose target is 1 leaves the target at 1; it leaves an
active record active, and makes a smoothing record active. -/
lemma State.tick_target_one {σ : Type} (calculateValue : CalculateValue σ) (s : State σ)
    (ht : s.targetValue = 1) (h : s.active = true ∨ s.smoothing = true) :
    (s.tick calculateValue).1.targetValue = 1 ∧ (s.tick calculateValue).1.active = true := by
  cases hs : s.smoothing
  · rw [State.tick_of_not_smoothing calculateValue s hs]
    rcases h with h | h
    · exact ⟨ht, h⟩
    · rw [hs] at h; exact absurd h (by decide)
  · simp [State.tick, hs, ht]

lemma runHeld_active {σ : Type} (calculateValue : CalculateValue σ) (ops : List HeldOp) :
    ∀ s : State σ, s.targetValue = 1 → s.active = true →
      (runHeld calculateValue s ops).active = true := by
  induction ops with
  | nil => intro s _ ha; exact ha
  | cons op ops ih =>
    intro s ht ha
    cases op
    · have h := State.tick_target_one calculateValue s ht (Or.inl ha)
      exact ih _ h.1 h.2
    · exact ih (s.setGate true) (by simp [State.setGate]) (by simpa [State.setGate] using ha)

lemma runHeld_smoothing {σ : Type} (calculateValue : CalculateValue σ) (ops : List HeldOp) :
    ∀ s : State σ, s.targetValue = 1 → s.smoothing = true → HeldOp.tick ∈ ops →
      (runHeld calculateValue s ops).active = true := by
  induction ops with
  | nil => intro s _ _ hmem; simp at hmem
  | cons op ops ih =>
    intro s ht hs hmem
    cases op
    · have h := State.tick_target_one calculateValue s ht (Or.inr hs)
      exact runHeld_active calculateValue ops _ h.1 h.2
    · have hm : HeldOp.tick ∈ ops := by
        rcases List.mem_cons.mp hmem with h | h
        · cases h
        · exact h
      exact ih (s.setGate true) (by simp [State.setGate]) (by simp [State.setGate]) hm

/-- The steady-state condition of a record: without smoothing, the last value
is within 0.0001 of the target and the record is active exactly when the target
is 1. -/
lemma State.tick_steady {σ : Type} (calculateValue : CalculateValue σ) (s : State σ)
    (hinv : s.smoothing = false →
      |s.targetValue - s.lastValue| ≤ 1 / 10000 ∧ (s.active = true ↔ s.targetValue = 1)) :
    (s.tick calculateValue).1.smoothing = false →
      |(s.tick calculateValue).1.targetValue - (s.tick calculateValue).1.lastValue| ≤ 1 / 10000 ∧
      ((s.tick calculateValue).1.active = true ↔ (s.tick calculateValue).1.targetValue = 1) := by
  cases hs : s.smoothing
  · rw [State.tick_of_not_smoothing calculateValue s hs]
    intro _
    exact hinv hs
  · simp only [State.tick, hs, Bool.not_true, Bool.false_eq_true, if_false]
    intro h
    have hle : ¬ |s.targetValue - (calculateValue s.env s.targetValue).2| > 1 / 10000 := by
      simpa using h
    refine ⟨not_lt.mp hle, ?_⟩
    simp only [h, Bool.false_or, decide_eq_true_eq]

lemma State.tick_targetValue {σ : Type} (calculateValue : CalculateValue σ) (s : State σ) :
    (s.tick calculateValue).1.targetValue = s.targetValue := by
  cases hs : s.smoothing
  · rw [State.tick_of_not_smoothing calculateValue s hs]
  · simp [State.tick, hs]

lemma runOps_steady {σ : Type} (calculateValue : CalculateValue σ) (ops : List GateOp) :
    ∀ s : State σ,
      (s.smoothing = false →
        |s.targetValue - s.lastValue| ≤ 1 / 10000 ∧ (s.active = true ↔ s.targetValue = 1)) →
      (runOps calculateValue s ops).smoothing = false →
        |(runOps calculateValue s ops).targetValue - (runOps calculateValue s ops).lastValue|
            ≤ 1 / 10000 ∧
        ((runOps calculateValue s ops).active = true ↔
          (runOps calculateValue s ops).targetValue = 1) := by
  induction ops with
  | nil => intro s hinv; exact hinv
  | cons op ops ih =>
    intro s hinv
    cases op with
    | tick => exact ih _ (State.tick_steady calculateValue s hinv)
    | setGate isOn =>
      exact ih (s.setGate isOn) (fun h => by simp [State.setGate] at h)

lemma runOps_targetValue {σ : Type} (calculateValue : CalculateValue σ) (ops : List GateOp) :
    ∀ (s : State σ) (g : Bool), s.targetValue = (if g then 1 else 0) →
      (runOps calculateValue s ops).targetValue = (if heldGate g ops then 1 else 0) := by
  induction ops with
  | nil => intro s g h; exact h
  | cons op ops ih =>
    intro s g h
    cases op with
    | tick => exact ih _ g (by rw [State.tick_targetValue]; exact h)
    | setGate isOn => exact ih (s.setGate isOn) isOn (by simp [State.setGate])

/-! ### Lemmas on block and frame processing -/

lemma ticks_length {σ : Type} (calculateValue : CalculateValue σ) (n : Nat) :
    ∀ s : State σ, (ticks calculateValue s n).2.length = n := by
  induction n with
  | zero => intro s; rfl
  | succ n ih => intro s; simp [ticks, ih]

lemma processChannel_eq_ticks {σ : Type} (calculateValue : CalculateValue σ) (vs : List ℚ) :
    ∀ s : State σ, processChannel calculateValue s vs
      = ((ticks calculateValue s vs.length).1,
         List.zipWith (fun v m => v * m) vs (ticks calculateValue s vs.length).2) := by
  induction vs with
  | nil => intro s; rfl
  | cons v vs ih =>
    intro s
    simp only [processChannel, List.length_cons, ticks, List.zipWith_cons_cons, ih]

lemma processFrames_zip_eq_ticks {σ : Type} (calculateValue : CalculateValue σ)
    (c0 : List ℚ) :
    ∀ (c1 : List ℚ) (s : State σ), c0.length = c1.length →
      (processFrames calculateValue s (List.zip c0 c1)).1
          = (ticks calculateValue s c0.length).1 ∧
      (processFrames calculateValue s (List.zip c0 c1)).2.map Prod.fst
          = List.zipWith (fun v m => v * m) c0 (ticks calculateValue s c0.length).2 ∧
      (processFrames calculateValue s (List.zip c0 c1)).2.map Prod.snd
          = List.zipWith (fun v m => v * m) c1 (ticks calculateValue s c0.length).2 := by
  induction c0 with
  | nil =>
    intro c1 s h
    cases c1 with
    | nil => exact ⟨rfl, rfl, rfl⟩
    | cons b c1 => simp at h
  | cons a c0 ih =>
    intro c1 s h
    cases c1 with
    | nil => simp at h
    | cons b c1 =>
      have hl : c0.length = c1.length := by simpa using h
      obtain ⟨h1, h2, h3⟩ := ih c1 (s.tick calculateValue).1 hl
      simp only [List.zip_cons_cons, processFrames, List.length_cons, ticks, List.map_cons,
        List.zipWith_cons_cons]
      exact ⟨h1, congrArg (List.cons _) h2, congrArg (List.cons _) h3⟩

lemma frames_one_channel (c0 : List ℚ) :
    ProcessData.frames { channels := [c0] } = c0.map (fun v => [v]) := by
  apply List.ext_getElem
  · simp [ProcessData.frames, ProcessData.getNumSamples]
  · intro i h1 h2
    have hi : i < c0.length := by simpa using h2
    simp [ProcessData.frames, ProcessData.frame, List.getElem?_eq_getElem hi]

lemma frames_two_channels (c0 c1 : List ℚ) (h : c0.length = c1.length) :
    ProcessData.frames { channels := [c0, c1] } = List.zipWith (fun a b => [a, b]) c0 c1 := by
  apply List.ext_getElem
  · simp [ProcessData.frames, ProcessData.getNumSamples, h]
  · intro i h1 h2
    have hi : i < c0.length := by
      simp only [List.length_zipWith] at h2
      omega
    have hj : i < c1.length := by omega
    simp [ProcessData.frames, ProcessData.frame, List.getElem?_eq_getElem hi,
      List.getElem?_eq_getElem hj]

lemma runProcessFrame_one_channel {σ : Type} (calculateValue : CalculateValue σ)
    (c0 : List ℚ) :
    ∀ s : State σ, runProcessFrame calculateValue s (c0.map (fun v => [v]))
      = ((ticks calculateValue s c0.length).1,
         (List.zipWith (fun v m => v * m) c0 (ticks calculateValue s c0.length).2).map
           (fun v => [v])) := by
  induction c0 with
  | nil => intro s; rfl
  | cons a c0 ih =>
    intro s
    simp only [List.map_cons, runProcessFrame, simple_ar_impl.processFrame, ih,
      List.length_cons, ticks, List.zipWith_cons_cons, List.map_nil]

lemma runProcessFrame_two_channels {σ : Type} (calculateValue : CalculateValue σ)
    (c0 : List ℚ) :
    ∀ (c1 : List ℚ) (s : State σ), c0.length = c1.length →
      runProcessFrame calculateValue s (List.zipWith (fun a b => [a, b]) c0 c1)
        = ((ticks calculateValue s c0.length).1,
           List.zipWith (fun a b => [a, b])
             (List.zipWith (fun v m => v * m) c0 (ticks calculateValue s c0.length).2)
             (List.zipWith (fun v m => v * m) c1 (ticks calculateValue s c0.length).2)) := by
  induction c0 with
  | nil =>
    intro c1 s h
    cases c1 with
    | nil => rfl
    | cons b c1 => simp at h
  | cons a c0 ih =>
    intro c1 s h
    cases c1 with
    | nil => simp at h
    | cons b c1 =>
      have hl : c0.length = c1.length := by simpa using h
      simp only [List.zipWith_cons_cons, runProcessFrame, simple_ar_impl.processFrame,
        ih c1 _ hl, List.length_cons, ticks, List.map_cons, List.map_nil]

/-! ### Lemmas on the conversion to single precision -/

lemma roundHalfEven_le (y : ℚ) (k : Int) (h : y ≤ k) : roundHalfEven y ≤ k := by
  have h1 : (⌊y⌋ : ℚ) ≤ y := Int.floor_le y
  unfold roundHalfEven
  split_ifs with a b c
  · have : (⌊y⌋ : ℚ) ≤ k := le_trans h1 h
    exact_mod_cast this
  · have : (⌊y⌋ : ℚ) < k := by linarith
    have : ⌊y⌋ < k := by exact_mod_cast this
    omega
  · have : (⌊y⌋ : ℚ) ≤ k := le_trans h1 h
    exact_mod_cast this
  · have : (⌊y⌋ : ℚ) < k := by linarith
    have : ⌊y⌋ < k := by exact_mod_cast this
    omega

lemma le_roundHalfEven (y : ℚ) (k : Int) (h : (k : ℚ) ≤ y) : k ≤ roundHalfEven y := by
  have h1 : k ≤ ⌊y⌋ := Int.le_floor.mpr h
  unfold roundHalfEven
  split_ifs <;> omega

lemma roundHalfEven_le_of_even (y : ℚ) (k : Int) (hk : k % 2 = 0) (h : y ≤ k + 1 / 2) :
    roundHalfEven y ≤ k := by
  have h1 : (⌊y⌋ : ℚ) ≤ y := Int.floor_le y
  unfold roundHalfEven
  split_ifs with a b c
  · have : (⌊y⌋ : ℚ) < k + 1 := by linarith
    have : ⌊y⌋ < k + 1 := by exact_mod_cast this
    omega
  · have : (⌊y⌋ : ℚ) < k := by linarith
    have : ⌊y⌋ < k := by exact_mod_cast this
    omega
  · have : (⌊y⌋ : ℚ) < k + 1 := by linarith
    have : ⌊y⌋ < k + 1 := by exact_mod_cast this
    omega
  · have : (⌊y⌋ : ℚ) < k + 1 := by linarith
    have : ⌊y⌋ < k + 1 := by exact_mod_cast this
    omega

lemma lt_roundHalfEven (y : ℚ) (k : Int) (h : (k : ℚ) + 1 / 2 < y) : k + 1 ≤ roundHalfEven y := by
  have h2 : y < ⌊y⌋ + 1 := Int.lt_floor_add_one y
  have h3 : k ≤ ⌊y⌋ := by
    have : (k : ℚ) < ⌊y⌋ + 1 := by linarith
    have : k < ⌊y⌋ + 1 := by exact_mod_cast this
    omega
  unfold roundHalfEven
  split_ifs with a b c
  · have : (k : ℚ) < ⌊y⌋ := by linarith
    have : k < ⌊y⌋ := by exact_mod_cast this
    omega
  · omega
  · have : (k : ℚ) < ⌊y⌋ := by linarith
    have : k < ⌊y⌋ := by exact_mod_cast this
    omega
  · omega

lemma two_zpow_sub (e : Int) : (2 : ℚ) ^ (e - 23) = 2 ^ e / 8388608 := by
  rw [zpow_sub₀ (by norm_num : (2 : ℚ) ≠ 0)]
  norm_num

lemma two_zpow_pos (e : Int) : (0 : ℚ) < 2 ^ e := zpow_pos (by norm_num) e

lemma toFloat_of_neg (v : ℚ) (hv : v < 0) : toFloat v ≤ 0 := by
  unfold toFloat
  rw [if_neg (ne_of_lt hv)]
  have hu : (0 : ℚ) < 2 ^ (floatExponent v - 23) := two_zpow_pos _
  have hy : v / 2 ^ (floatExponent v - 23) ≤ ((0 : Int) : ℚ) := by
    simp only [Int.cast_zero]
    exact le_of_lt (div_neg_of_neg_of_pos hv hu)
  have hr := roundHalfEven_le _ 0 hy
  have hr2 : (roundHalfEven (v / 2 ^ (floatExponent v - 23)) : ℚ) ≤ 0 := by exact_mod_cast hr
  exact mul_nonpos_of_nonpos_of_nonneg hr2 (le_of_lt hu)

lemma toFloat_of_lt_half (v : ℚ) (h0 : 0 < v) (hv : v < 1 / 2) : toFloat v ≤ 1 / 2 := by
  unfold toFloat
  rw [if_neg (ne_of_gt h0)]
  have habs : |v| = v := abs_of_pos h0
  have hL : Int.log 2 v < -1 := by
    rw [← Int.lt_zpow_iff_log_lt (by norm_num) h0]
    norm_num
    linarith
  have he : floatExponent v ≤ -2 := by
    unfold floatExponent
    rw [habs]
    exact max_le (by omega) (by norm_num)
  have hLe : Int.log 2 v ≤ floatExponent v := by
    unfold floatExponent
    rw [habs]
    exact le_max_left _ _
  generalize floatExponent v = e at he hLe
  have hvlt : v < 2 ^ (e + 1) := by
    have h1 : v < ((2 : ℕ) : ℚ) ^ (Int.log 2 v + 1) := Int.lt_zpow_succ_log_self (by norm_num) v
    have h2 : ((2 : ℕ) : ℚ) ^ (Int.log 2 v + 1) ≤ ((2 : ℕ) : ℚ) ^ (e + 1) :=
      zpow_le_zpow_right₀ (by norm_num) (by omega)
    have := lt_of_lt_of_le h1 h2
    simpa using this
  have hpe : (0 : ℚ) < 2 ^ e := two_zpow_pos e
  have hsucc : (2 : ℚ) ^ (e + 1) = 2 ^ e * 2 := zpow_add_one₀ (by norm_num) e
  have hle1 : (2 : ℚ) ^ (e + 1) ≤ 1 / 2 := by
    have : (2 : ℚ) ^ (e + 1) ≤ 2 ^ (-1 : Int) := zpow_le_zpow_right₀ (by norm_num) (by omega)
    simpa using this
  rw [two_zpow_sub]
  have hy : v / (2 ^ e / 8388608) ≤ ((16777216 : Int) : ℚ) := by
    rw [div_le_iff₀ (by positivity)]
    push_cast
    rw [hsucc] at hvlt
    linarith
  have hr := roundHalfEven_le _ _ hy
  have hr2 : (roundHalfEven (v / (2 ^ e / 8388608)) : ℚ) ≤ 16777216 := by exact_mod_cast hr
  calc (roundHalfEven (v / (2 ^ e / 8388608)) : ℚ) * (2 ^ e / 8388608)
      ≤ 16777216 * (2 ^ e / 8388608) := mul_le_mul_of_nonneg_right hr2 (by positivity)
    _ = 2 ^ e * 2 := by ring
    _ ≤ 1 / 2 := by rw [← hsucc]; exact hle1

lemma toFloat_of_one_le (v : ℚ) (hv : 1 ≤ v) : 1 ≤ toFloat v := by
  have h0 : 0 < v := by linarith
  unfold toFloat
  rw [if_neg (ne_of_gt h0)]
  have habs : |v| = v := abs_of_pos h0
  have hL : 0 ≤ Int.log 2 v := by
    rw [← Int.zpow_le_iff_le_log (by norm_num) h0]
    simpa using hv
  have he : floatExponent v = Int.log 2 v := by
    unfold floatExponent
    rw [habs]
    exact max_eq_left (by omega)
  rw [he]
  have hle : (2 : ℚ) ^ Int.log 2 v ≤ v := by
    have := Int.zpow_log_le_self (R := ℚ) (b := 2) (by norm_num) h0
    simpa using this
  generalize Int.log 2 v = e at hL hle
  have hpe : (0 : ℚ) < 2 ^ e := two_zpow_pos e
  have h1e : (1 : ℚ) ≤ 2 ^ e := by
    have : (2 : ℚ) ^ (0 : Int) ≤ 2 ^ e := zpow_le_zpow_right₀ (by norm_num) hL
    simpa using this
  rw [two_zpow_sub]
  have hy : ((8388608 : Int) : ℚ) ≤ v / (2 ^ e / 8388608) := by
    rw [le_div_iff₀ (by positivity)]
    push_cast
    linarith
  have hr := le_roundHalfEven _ _ hy
  have hr2 : (8388608 : ℚ) ≤ (roundHalfEven (v / (2 ^ e / 8388608)) : ℚ) := by exact_mod_cast hr
  calc (1 : ℚ) ≤ 2 ^ e := h1e
    _ = 8388608 * (2 ^ e / 8388608) := by ring
    _ ≤ (roundHalfEven (v / (2 ^ e / 8388608)) : ℚ) * (2 ^ e / 8388608) :=
        mul_le_mul_of_nonneg_right hr2 (by positivity)

lemma toFloat_of_binade (v : ℚ) (h1 : 1 / 2 ≤ v) (h2 : v < 1) :
    toFloat v = roundHalfEven (v * 16777216) / 16777216 := by
  have h0 : 0 < v := by linarith
  unfold toFloat
  rw [if_neg (ne_of_gt h0)]
  have habs : |v| = v := abs_of_pos h0
  have hL1 : -1 ≤ Int.log 2 v := by
    rw [← Int.zpow_le_iff_le_log (by norm_num) h0]
    norm_num
    linarith
  have hL2 : Int.log 2 v < 0 := by
    rw [← Int.lt_zpow_iff_log_lt (by norm_num) h0]
    simpa using h2
  have he : floatExponent v = -1 := by
    unfold floatExponent
    rw [habs]
    have : Int.log 2 v = -1 := by omega
    rw [this]
    rfl
  rw [he]
  have hu : (2 : ℚ) ^ ((-1 : Int) - 23) = 1 / 16777216 := by
    rw [two_zpow_sub]
    norm_num
  rw [hu]
  have : v / (1 / 16777216) = v * 16777216 := by ring
  rw [this]
  ring

/-- The single-precision value of v exceeds 0.5 exactly when v exceeds
0.5 + 2^-25. -/
lemma toFloat_gt_half_iff (v : ℚ) : toFloat v > 1 / 2 ↔ v > 1 / 2 + 1 / 33554432 := by
  rcases lt_trichotomy v 0 with hneg | hzero | hpos
  · have := toFloat_of_neg v hneg
    constructor
    · intro h; linarith
    · intro h; linarith
  · subst hzero
    simp [toFloat]
    norm_num
  · by_cases hlt : v < 1 / 2
    · have := toFloat_of_lt_half v hpos hlt
      constructor
      · intro h; linarith
      · intro h; linarith
    · have hge : 1 / 2 ≤ v := not_lt.mp hlt
      by_cases h1 : v < 1
      · rw [toFloat_of_binade v hge h1]
        constructor
        · intro h
          by_contra hc
          have hle : v * 16777216 ≤ ((8388608 : Int) : ℚ) + 1 / 2 := by
            push_cast
            linarith
          have hr := roundHalfEven_le_of_even _ 8388608 (by decide) hle
          have hr2 : (roundHalfEven (v * 16777216) : ℚ) ≤ 8388608 := by exact_mod_cast hr
          have : (roundHalfEven (v * 16777216) : ℚ) / 16777216 ≤ 1 / 2 := by
            rw [div_le_iff₀ (by norm_num)]
            linarith
          linarith
        · intro h
          have hgt : ((8388608 : Int) : ℚ) + 1 / 2 < v * 16777216 := by
            push_cast
            linarith
          have hr := lt_roundHalfEven _ 8388608 hgt
          have hr2 : (8388609 : ℚ) ≤ (roundHalfEven (v * 16777216) : ℚ) := by exact_mod_cast hr
          have : (1 : ℚ) / 2 < (roundHalfEven (v * 16777216) : ℚ) / 16777216 := by
            rw [lt_div_iff₀ (by norm_num)]
            linarith
          exact this
      · have hge1 : 1 ≤ v := not_lt.mp h1
        have := toFloat_of_one_le v hge1
        constructor
        · intro _; linarith
        · intro _; linarith

/-! ### Lemmas on the gate of the shaped envelope -/

lemma setGateOnState_of_on (v : ℚ) (s : state_base) (hv : v > 1 / 2) :
    setGateOnState v s
      = { s with current_state :=
            if s.current_state = EnvelopeState.IDLE then EnvelopeState.ATTACK
            else EnvelopeState.RETRIGGER } := by
  have hd : decide (v > 1 / 2) = true := decide_eq_true hv
  unfold setGateOnState
  simp only [hd, if_true, Bool.not_true, Bool.false_and, Bool.false_eq_true, if_false]
  split_ifs <;> rfl

lemma setGateOnState_of_off (v : ℚ) (s : state_base) (hv : ¬ v > 1 / 2) :
    setGateOnState v s
      = { s with current_state :=
            if s.current_state = EnvelopeState.IDLE then EnvelopeState.IDLE
            else EnvelopeState.RELEASE } := by
  have hd : decide (v > 1 / 2) = false := decide_eq_false hv
  unfold setGateOnState
  simp only [hd, Bool.false_eq_true, if_false, Bool.not_false, Bool.true_and,
    decide_eq_true_eq]
  by_cases hi : s.current_state = EnvelopeState.IDLE
  · simp only [hi, ne_eq, not_true_eq_false, if_false, if_true]
    cases s
    simp_all
  · simp only [hi, ne_eq, not_false_eq_true, if_true, if_false]

lemma setGateOnState_current_state (v : ℚ) (s : state_base) :
    (setGateOnState v s).current_state
      = (if v > 1 / 2 then
          (if s.current_state = EnvelopeState.IDLE then EnvelopeState.ATTACK
           else EnvelopeState.RETRIGGER)
         else
          (if s.current_state = EnvelopeState.IDLE then EnvelopeState.IDLE
           else EnvelopeState.RELEASE)) := by
  by_cases hv : v > 1 / 2
  · rw [setGateOnState_of_on v s hv, if_pos hv]
  · rw [setGateOnState_of_off v s hv, if_neg hv]

lemma setGateOnState_other_fields (v : ℚ) (s : state_base) :
    { setGateOnState v s with current_state := s.current_state } = s := by
  by_cases hv : v > 1 / 2
  · rw [setGateOnState_of_on v s hv]
  · rw [setGateOnState_of_off v s hv]

/-! ## Properties of the voice gate tracker -/

/-- C1. For every held-note count n ≥ 0 below INT_MAX (so that the increment
stays within the int counter), handleKeyEvent on a note-on sets the count to
n + 1, sets newValue to true, and returns true if and only if n = 0. -/
theorem handleKeyEvent_noteOn (n : Int) (nv : Bool) (h0 : 0 ≤ n) (hmax : n < INT_MAX) :
    (handleKeyEvent n HiseEvent.noteOn nv).numKeys = n + 1 ∧
    (handleKeyEvent n HiseEvent.noteOn nv).newValue = true ∧
    ((handleKeyEvent n HiseEvent.noteOn nv).ret = true ↔ n = 0) := by
  rw [handleKeyEvent_noteOn_eq n nv h0 hmax]
  simp

/-- Witness of C1: a note-on at count 0 gives count 1 and returns true. -/
theorem handleKeyEvent_noteOn_witness :
    (handleKeyEvent 0 HiseEvent.noteOn false).numKeys = 0 + 1 ∧
    (handleKeyEvent 0 HiseEvent.noteOn false).newValue = true ∧
    ((handleKeyEvent 0 HiseEvent.noteOn false).ret = true ↔ (0 : Int) = 0) :=
  handleKeyEvent_noteOn 0 false (by decide) (by decide)

/-- C2. For every held-note count n ≥ 1 (an int, so at most INT_MAX),
handleKeyEvent on a note-off sets the count to n - 1, sets newValue to false,
and returns true if and only if n = 1. -/
theorem handleKeyEvent_noteOff (n : Int) (nv : Bool) (h1 : 1 ≤ n) (hmax : n ≤ INT_MAX) :
    (handleKeyEvent n HiseEvent.noteOff nv).numKeys = n - 1 ∧
    (handleKeyEvent n HiseEvent.noteOff nv).newValue = false ∧
    ((handleKeyEvent n HiseEvent.noteOff nv).ret = true ↔ n = 1) := by
  rw [handleKeyEvent_noteOff_eq n nv h1 hmax]
  simp

/-- Witness of C2: a note-off at count 3 gives count 2 and returns false. -/
theorem handleKeyEvent_noteOff_witness :
    (handleKeyEvent 3 HiseEvent.noteOff true).numKeys = 3 - 1 ∧
    (handleKeyEvent 3 HiseEvent.noteOff true).newValue = false ∧
    ((handleKeyEvent 3 HiseEvent.noteOff true).ret = true ↔ (3 : Int) = 1) :=
  handleKeyEvent_noteOff 3 true (by decide) (by decide)

/-- C3, the code at the failing input. With the held-note count at 0, a
note-off leaves the count at 0 but handleKeyEvent returns true with newValue
false, so handleHiseEvent of the monophonic gate follower calls setGate(0.0),
which changes the record of the voice: smoothing becomes true. -/
theorem handleKeyEvent_noteOff_untracked :
    handleKeyEvent 0 HiseEvent.noteOff true = { numKeys := 0, newValue := false, ret := true } ∧
    ((State.init ()).smoothing = false ∧
      ((simple_ar_impl.handleHiseEvent
          { isPolyphonic := false, numKeys := 0, states := [State.init ()] }
          HiseEvent.noteOff true).states.map (fun s => s.smoothing)) = [true]) := by
  refine ⟨by decide, rfl, ?_⟩
  simp [simple_ar_impl.handleHiseEvent, simple_ar_impl.setGate, State.setGate, handleKeyEvent,
    HiseEvent.isNoteOn, HiseEvent.isNoteOff, jmax, wrapInt32]

/-- C4. For every n ≥ 1 (at most INT_MAX, the range of the int counter) and
every sequence of n note-ons and n note-offs fed to handleKeyEvent from count
0, in which every non-empty proper prefix holds strictly more note-ons than
note-offs, handleKeyEvent returns true exactly twice: on the first event, with
newValue true, and on the last event, with newValue false; the final count is
0. -/
theorem runKeyEvents_one_gate_on_one_gate_off (n : Nat) (evs : List HiseEvent) (nv : Bool)
    (hn : 1 ≤ n) (hmax : (n : Int) ≤ INT_MAX)
    (hon : evs.count HiseEvent.noteOn = n) (hoff : evs.count HiseEvent.noteOff = n)
    (hlen : evs.length = 2 * n)
    (hpre : ∀ k, 0 < k → k < 2 * n →
      (evs.take k).count HiseEvent.noteOff < (evs.take k).count HiseEvent.noteOn) :
    (runKeyEvents 0 nv evs).1 = 0 ∧
    ∃ mid, (runKeyEvents 0 nv evs).2 = (true, true) :: mid ++ [(true, false)] ∧
      ∀ p ∈ mid, p.1 = false := by
  have hcount : ∀ e : HiseEvent, e ∈ evs → e ≠ HiseEvent.other := by
    intro e he hother
    subst hother
    have hpos : 0 < evs.count HiseEvent.other := List.count_pos_iff.mpr he
    have hsum : evs.count HiseEvent.noteOn + evs.count HiseEvent.noteOff
        + evs.count HiseEvent.other = evs.length := by
      clear hpre hlen hon hoff hpos he
      induction evs with
      | nil => simp
      | cons a l ih => cases a <;> simp [List.count_cons] <;> omega
    omega
  cases evs with
  | nil => simp at hlen; omega
  | cons e es =>
    have h1 := hpre 1 (by omega) (by omega)
    simp only [List.take_succ_cons, List.take_zero] at h1
    have he : e = HiseEvent.noteOn := by
      cases e
      · rfl
      · simp at h1
      · simp at h1
    subst he
    have hes : es ≠ [] := by
      intro h
      subst h
      simp at hlen
      omega
    have hbal : balance (HiseEvent.noteOn :: es) = 0 := by
      unfold balance
      rw [hon, hoff]
      omega
    rw [balance_cons, balance_noteOn] at hbal
    have htail := runKeyEvents_tail es 1 true hes
      (fun x hx => hcount x (List.mem_cons_of_mem _ hx))
      (fun k hk => by
        have hk2 : k + 1 < 2 * n := by
          have : (HiseEvent.noteOn :: es).length = es.length + 1 := rfl
          omega
        have hp := hpre (k + 1) (by omega) hk2
        have hle : ((HiseEvent.noteOn :: es).take (k + 1)).count HiseEvent.noteOn ≤ n := by
          rw [← hon]
          exact (List.take_sublist _ _).count_le _
        have hb : balance ((HiseEvent.noteOn :: es).take (k + 1))
            = 1 + balance (es.take k) := by
          rw [List.take_succ_cons, balance_cons, balance_noteOn]
        unfold balance at hb
        unfold balance
        constructor <;> omega)
      hbal
    obtain ⟨hfin, mid, hmid, hall⟩ := htail
    have hk : handleKeyEvent 0 HiseEvent.noteOn nv
        = { numKeys := 1, newValue := true, ret := true } := by
      rw [handleKeyEvent_noteOn_eq 0 nv (by decide) (by decide)]
      rfl
    refine ⟨?_, mid, ?_, hall⟩
    · simp only [runKeyEvents, hk]
      exact hfin
    · simp only [runKeyEvents, hk, hmid, List.cons_append]

/-- Witness of C4: three overlapping note-ons followed by three note-offs. -/
theorem runKeyEvents_one_gate_on_one_gate_off_witness :
    (runKeyEvents 0 false
      [HiseEvent.noteOn, HiseEvent.noteOn, HiseEvent.noteOn,
       HiseEvent.noteOff, HiseEvent.noteOff, HiseEvent.noteOff]).1 = 0 ∧
    ∃ mid, (runKeyEvents 0 false
      [HiseEvent.noteOn, HiseEvent.noteOn, HiseEvent.noteOn,
       HiseEvent.noteOff, HiseEvent.noteOff, HiseEvent.noteOff]).2
        = (true, true) :: mid ++ [(true, false)] ∧ ∀ p ∈ mid, p.1 = false :=
  runKeyEvents_one_gate_on_one_gate_off 3 _ false (by decide) (by decide) (by decide)
    (by decide) (by decide) (by intro k h0 h6; interval_cases k <;> decide)

/-! ## Properties of the modulation post-processor -/

/-- C5, counterexample. When a release has just settled, the generator is
inactive after the call and its mod value (0.00005) differs from lastValue
(0.0002), yet postProcess makes no call carrying the new value: the calls are
the activity change and the forced 0.0 only. -/
theorem postProcess_value_change_counterexample :
    (1 / 20000 : ℚ) ≠ 1 / 5000 ∧
    postProcess false (1 / 20000) true (1 / 5000)
      = [{ index := 1, value := 0 }, { index := 0, value := 0 }] ∧
    ({ index := 0, value := 1 / 20000 } : ParameterCall)
      ∉ postProcess false (1 / 20000) true (1 / 5000) := by
  refine ⟨by norm_num, ?_, ?_⟩
  · simp [postProcess, boolToDouble]
  · simp [postProcess, boolToDouble]

/-- C5, amended. For every pre-call snapshot (wasActive, lastValue) and every
post-call generator state: if the generator is active after the call and its
mod value differs from lastValue, the first call of postProcess is the
modulation value output (index 0) carrying the new value. If the generator is
inactive after the call, the mod value is not read: postProcess makes no call
when wasActive is false, and otherwise only the activity output (index 1)
carrying 0.0 followed by the forced 0.0 on output 0, whatever the mod value. -/
theorem postProcess_value_change (isActive wasActive : Bool) (mv lastValue : ℚ) :
    (isActive = true → mv ≠ lastValue →
      (postProcess isActive mv wasActive lastValue).head? = some { index := 0, value := mv } ∧
      ({ index := 0, value := mv } : ParameterCall)
        ∈ postProcess isActive mv wasActive lastValue) ∧
    (isActive = false →
      postProcess isActive mv wasActive lastValue
        = if wasActive = true then [{ index := 1, value := 0 }, { index := 0, value := 0 }]
          else []) := by
  constructor
  · intro hactive hne
    subst hactive
    simp [postProcess, hne]
  · intro hinactive
    subst hinactive
    cases wasActive <;> simp [postProcess, boolToDouble]

/-- Witness of C5 amended: an active generator whose value moved from 0.25 to
0.5, and an inactive generator that was active before, with mod value 0.3. -/
theorem postProcess_value_change_witness :
    ((postProcess true (1 / 2) true (1 / 4)).head? = some { index := 0, value := 1 / 2 } ∧
      ({ index := 0, value := 1 / 2 } : ParameterCall) ∈ postProcess true (1 / 2) true (1 / 4)) ∧
    postProcess false (3 / 10) true (1 / 4)
      = (if true = true then [{ index := 1, value := 0 }, { index := 0, value := 0 }]
         else []) :=
  ⟨(postProcess_value_change true true (1 / 2) (1 / 4)).1 rfl (by norm_num),
   (postProcess_value_change false true (3 / 10) (1 / 4)).2 rfl⟩

/-- C6. For every call of postProcess in which the post-call activity differs
from wasActive, the calls end with the activity output (index 1) carrying the
new activity as 1.0 or 0.0, followed immediately by the modulation value output
(index 0) carrying 0.0; the last call is therefore the value 0.0 on output 0,
whether the voice became active or inactive. -/
theorem postProcess_activity_change (isActive wasActive : Bool) (mv lastValue : ℚ)
    (hne : isActive ≠ wasActive) :
    (∃ before, postProcess isActive mv wasActive lastValue
        = before ++ [{ index := 1, value := if isActive then 1 else 0 },
                     { index := 0, value := 0 }]) ∧
    (postProcess isActive mv wasActive lastValue).getLast? = some { index := 0, value := 0 } := by
  have h : postProcess isActive mv wasActive lastValue
      = (if isActive then (if mv ≠ lastValue then [{ index := 0, value := mv }] else []) else [])
        ++ [{ index := 1, value := if isActive then 1 else 0 }, { index := 0, value := 0 }] := by
    simp [postProcess, boolToDouble, hne]
  refine ⟨⟨_, h⟩, ?_⟩
  rw [h, List.getLast?_append]
  simp

/-- Witness of C6: a voice that became active with value 0.3. -/
theorem postProcess_activity_change_witness :
    (∃ before, postProcess true (3 / 10) false 0
        = before ++ [{ index := 1, value := if true = true then 1 else 0 },
                     { index := 0, value := 0 }]) ∧
    (postProcess true (3 / 10) false 0).getLast? = some { index := 0, value := 0 } :=
  postProcess_activity_change true false (3 / 10) 0 (by decide)

/-! ## Properties of the gate follower -/

/-- C7, counterexample. After setGate(true) on the default record and no tick
at all, the active flag is still false although the gate is held on. -/
theorem setGate_active_counterexample :
    (runHeld (fun (e : Unit) (x : ℚ) => (e, x)) ((State.init ()).setGate true) []).active = false ∧
    ((State.init ()).setGate true).targetValue = 1 := by
  constructor <;> simp [runHeld, State.setGate, State.init]

/-- C7, amended. For every record and every filter behaviour, after
setGate(true) and any sequence of subsequent tick() and setGate(true) calls
that holds at least one tick(), the active flag of the record is true,
including on ticks after the filtered value has settled and smoothing has
stopped. -/
theorem setGate_active_after_tick {σ : Type} (calculateValue : CalculateValue σ) (s : State σ)
    (ops : List HeldOp) (htick : HeldOp.tick ∈ ops) :
    (runHeld calculateValue (s.setGate true) ops).active = true :=
  runHeld_smoothing calculateValue ops (s.setGate true) (by simp [State.setGate])
    (by simp [State.setGate]) htick

/-- Witness of C7 amended: the default record with a filter that reaches its
input at once, gate on, three ticks (smoothing stops at the first). -/
theorem setGate_active_after_tick_witness :
    (runHeld (fun (e : Unit) (x : ℚ) => (e, x)) ((State.init ()).setGate true)
      [HeldOp.tick, HeldOp.tick, HeldOp.tick]).active = true :=
  setGate_active_after_tick (fun (e : Unit) (x : ℚ) => (e, x)) (State.init ())
    [HeldOp.tick, HeldOp.tick, HeldOp.tick] (by decide)

/-- C8. For every record and every filter, tick() is its reference definition:
without smoothing it returns targetValue and leaves every field unchanged; with
smoothing it steps the filter toward targetValue to obtain v, stores
lastValue = v, sets smoothing = (|targetValue - v| > 0.0001), sets
active = (smoothing || targetValue == 1.0) with the new smoothing, and returns
v. -/
theorem tick_eq_tickReference {σ : Type} (calculateValue : CalculateValue σ) (s : State σ) :
    s.tick calculateValue = tickReference calculateValue s := by
  cases hs : s.smoothing
  · simp [State.tick, tickReference, hs]
  · simp [State.tick, tickReference, hs]

/-! ## Properties of the shaped envelope -/

/-- C9, counterexample. The gate value 0.5 + 2^-30, a double above 0.5,
becomes 0.5 in single precision, so the gate is off: a record at rest stays
IDLE, where gate-on from IDLE would give ATTACK. -/
theorem setParameter_Gate_counterexample :
    (536870913 / 1073741824 : ℚ) > 1 / 2 ∧
    toFloat (536870913 / 1073741824) = 1 / 2 ∧
    ((ahdsr.setParameterGate (fun x => x)
        { uiValues := [0, 0, 0, 0, 0, 0, 0, 0, 0], states := [state_base.atRest] }
        (536870913 / 1073741824)).states.map (fun s => s.current_state))
      = [EnvelopeState.IDLE] := by
  have hnot : ¬ toFloat (536870913 / 1073741824) > 1 / 2 := by
    rw [toFloat_gt_half_iff]
    norm_num
  refine ⟨by norm_num, ?_, ?_⟩
  · apply le_antisymm (not_lt.mp hnot)
    rw [toFloat_of_binade _ (by norm_num) (by norm_num)]
    have hr := le_roundHalfEven (536870913 / 1073741824 * 16777216) 8388608 (by norm_num)
    have hr2 : (8388608 : ℚ)
        ≤ (roundHalfEven (536870913 / 1073741824 * 16777216) : ℚ) := by exact_mod_cast hr
    rw [le_div_iff₀ (by norm_num)]
    linarith
  · simp only [ahdsr.setParameterGate, ahdsr.setDisplayValue, List.map_cons, List.map_nil,
      setGateOnState_of_off _ _ hnot]
    rfl

/-- C9, amended. For every per-voice record and every gate value v,
setParameter<Gate>(v) applies the gate transition to every record with v
converted to single precision; the transition thresholds the converted value at
0.5, which is on exactly when v > 0.5 + 2^-25 (so 0.5 and the doubles just above
it are off), and sets current_state thus: gate-on from IDLE gives ATTACK,
gate-on from any other state gives RETRIGGER, gate-off from IDLE stays IDLE,
gate-off from any other state gives RELEASE; no other field of the record
changes. -/
theorem setParameter_Gate_transition (gainToDecibels : ℚ → ℚ) (node : ahdsr) (v : ℚ)
    (s : state_base) :
    (node.setParameterGate gainToDecibels v).states
      = node.states.map (setGateOnState (toFloat v)) ∧
    (toFloat v > 1 / 2 ↔ v > 1 / 2 + 1 / 33554432) ∧
    (setGateOnState (toFloat v) s).current_state
      = (if v > 1 / 2 + 1 / 33554432 then
          (if s.current_state = EnvelopeState.IDLE then EnvelopeState.ATTACK
           else EnvelopeState.RETRIGGER)
         else
          (if s.current_state = EnvelopeState.IDLE then EnvelopeState.IDLE
           else EnvelopeState.RELEASE)) ∧
    { setGateOnState (toFloat v) s with current_state := s.current_state } = s := by
  refine ⟨?_, toFloat_gt_half_iff v, ?_, ?_⟩
  · simp [ahdsr.setParameterGate, ahdsr.setDisplayValue]
  · rw [setGateOnState_current_state (toFloat v) s]
    by_cases h : v > 1 / 2 + 1 / 33554432
    · rw [if_pos ((toFloat_gt_half_iff v).mpr h), if_pos h]
    · rw [if_neg (fun hc => h ((toFloat_gt_half_iff v).mp hc)), if_neg h]
  · exact setGateOnState_other_fields (toFloat v) s

/-! ## The post-processor emits on transitions only -/

/-- C10. For every call of postProcess in which the post-call activity equals
wasActive and the post-call mod value equals lastValue, no parameter call is
made at all; in particular simple_ar_impl::process makes none on a block
without samples, and none on a block during which the gate follower is in
steady state (smoothing false), where it also leaves the record unchanged. -/
theorem postProcess_no_transition {σ : Type} (calculateValue : CalculateValue σ)
    (s : State σ) (d : ProcessData) (isActive wasActive : Bool) (mv lastValue : ℚ) :
    (isActive = wasActive → mv = lastValue →
      postProcess isActive mv wasActive lastValue = []) ∧
    ((∀ ch ∈ d.channels, ch = []) →
      (simple_ar_impl.process calculateValue s d).calls = []) ∧
    (s.smoothing = false →
      (simple_ar_impl.process calculateValue s d).calls = [] ∧
      (simple_ar_impl.process calculateValue s d).state = s) := by
  refine ⟨?_, ?_, ?_⟩
  · intro h1 h2
    subst h1 h2
    exact postProcess_same _ _
  · intro hempty
    have h0 : d.channels.getD 0 [] = [] := by
      cases hd : d.channels with
      | nil => rfl
      | cons c cs =>
        simp only [List.getD_cons_zero]
        exact hempty c (by rw [hd]; simp)
    unfold simple_ar_impl.process
    by_cases hc : d.getNumChannels = 1
    · simp only [hc, if_true, h0, processChannel]
      exact postProcess_same _ _
    · simp only [hc, if_false, ProcessData.toFrameData, h0, List.zip_nil_left, processFrames]
      exact postProcess_same _ _
  · intro hs
    unfold simple_ar_impl.process
    by_cases hc : d.getNumChannels = 1
    · simp only [hc, if_true, processChannel_of_not_smoothing calculateValue s hs]
      exact ⟨postProcess_same _ _, trivial⟩
    · simp only [hc, if_false, processFrames_of_not_smoothing calculateValue s hs]
      exact ⟨postProcess_same _ _, trivial⟩

/-- Witness of C10: an unchanged snapshot, and a settled, held gate follower
(target 1, value 1, active, not smoothing) processing a mono block without
samples and a mono block of two samples. -/
theorem postProcess_no_transition_witness :
    (postProcess true 1 true 1 = []) ∧
    (simple_ar_impl.process (fun (e : Unit) (x : ℚ) => (e, x))
        { env := (), targetValue := 1, lastValue := 1, active := true, smoothing := false }
        { channels := [[]] }).calls = [] ∧
    (simple_ar_impl.process (fun (e : Unit) (x : ℚ) => (e, x))
        { env := (), targetValue := 1, lastValue := 1, active := true, smoothing := false }
        { channels := [[1 / 2, 1 / 4]] }).calls = [] :=
  ⟨(postProcess_no_transition (fun (e : Unit) (x : ℚ) => (e, x))
      { env := (), targetValue := 1, lastValue := 1, active := true, smoothing := false }
      { channels := [[1 / 2, 1 / 4]] } true true 1 1).1 rfl rfl,
   (postProcess_no_transition (fun (e : Unit) (x : ℚ) => (e, x))
      { env := (), targetValue := 1, lastValue := 1, active := true, smoothing := false }
      { channels := [[]] } true true 1 1).2.1 (by simp),
   ((postProcess_no_transition (fun (e : Unit) (x : ℚ) => (e, x))
      { env := (), targetValue := 1, lastValue := 1, active := true, smoothing := false }
      { channels := [[1 / 2, 1 / 4]] } true true 1 1).2.2 rfl).1⟩

/-! ## Frame and block processing of the gate follower -/

/-- C11. For every voice record and every block of n ≥ 0 samples with one or
two channels, block-mode process() leaves the record in the state reached by n
successive tick() calls and multiplies sample i of every channel by the value
returned by the i-th tick, the same value for both channels of a two-channel
block; the resulting record and buffer are those obtained by calling
processFrame() once per frame on the same samples. -/
theorem process_eq_ticks_eq_processFrame {σ : Type} (calculateValue : CalculateValue σ)
    (s : State σ) (d : ProcessData) (n : Nat)
    (hch : d.getNumChannels = 1 ∨ d.getNumChannels = 2)
    (hn : ∀ c ∈ d.channels, c.length = n) :
    (simple_ar_impl.process calculateValue s d).state = (ticks calculateValue s n).1 ∧
    (ticks calculateValue s n).2.length = n ∧
    (simple_ar_impl.process calculateValue s d).data.channels
      = d.channels.map (fun c => List.zipWith (fun v m => v * m) c (ticks calculateValue s n).2) ∧
    runProcessFrame calculateValue s d.frames
      = ((simple_ar_impl.process calculateValue s d).state,
         (simple_ar_impl.process calculateValue s d).data.frames) := by
  obtain ⟨channels⟩ := d
  refine ⟨?_, ticks_length calculateValue n s, ?_⟩
  all_goals
    match channels, hch, hn with
    | [], hch, _ => simp [ProcessData.getNumChannels] at hch
    | [c0], _, hn =>
      have h0 : c0.length = n := hn c0 (by simp)
      subst h0
      simp only [simple_ar_impl.process, ProcessData.getNumChannels, List.length_singleton,
        if_true, List.getD_cons_zero, processChannel_eq_ticks, List.map_cons, List.map_nil,
        frames_one_channel, runProcessFrame_one_channel, and_self]
    | [c0, c1], _, hn =>
      have h0 : c0.length = n := hn c0 (by simp)
      have h1 : c1.length = n := hn c1 (by simp)
      subst h0
      have hl : c0.length = c1.length := h1.symm
      obtain ⟨p1, p2, p3⟩ := processFrames_zip_eq_ticks calculateValue c0 c1 s hl
      have hne : ¬ (2 = 1) := by decide
      have hz : (List.zipWith (fun v m => v * m) c0 (ticks calculateValue s c0.length).2).length
          = (List.zipWith (fun v m => v * m) c1 (ticks calculateValue s c0.length).2).length := by
        simp [ticks_length, hl]
      simp only [simple_ar_impl.process, ProcessData.getNumChannels, List.length_cons,
        List.length_nil, Nat.zero_add, Nat.reduceAdd, hne, if_false,
        ProcessData.toFrameData, List.getD_cons_zero, List.getD_cons_succ,
        ProcessData.fromFrameData, List.drop_succ_cons, List.drop_zero, p1, p2, p3,
        List.map_cons, List.map_nil, frames_two_channels c0 c1 hl,
        runProcessFrame_two_channels calculateValue c0 c1 s hl,
        frames_two_channels _ _ hz, and_self]
    | _ :: _ :: _ :: _, hch, _ => simp [ProcessData.getNumChannels] at hch

/-- Witness of C11: a two-channel block of three samples through a filter that
halves its distance to the target at each step, after a gate-on. -/
theorem process_eq_ticks_eq_processFrame_witness :
    (simple_ar_impl.process (fun (e : ℚ) (x : ℚ) => ((e + x) / 2, (e + x) / 2))
        ((State.init (0 : ℚ)).setGate true) { channels := [[1, 1, 1], [2, 2, 2]] }).state
      = (ticks (fun (e : ℚ) (x : ℚ) => ((e + x) / 2, (e + x) / 2))
          ((State.init (0 : ℚ)).setGate true) 3).1 ∧
    (ticks (fun (e : ℚ) (x : ℚ) => ((e + x) / 2, (e + x) / 2))
        ((State.init (0 : ℚ)).setGate true) 3).2.length = 3 ∧
    (simple_ar_impl.process (fun (e : ℚ) (x : ℚ) => ((e + x) / 2, (e + x) / 2))
        ((State.init (0 : ℚ)).setGate true) { channels := [[1, 1, 1], [2, 2, 2]] }).data.channels
      = ([[1, 1, 1], [2, 2, 2]] : List (List ℚ)).map
          (fun c => List.zipWith (fun v m => v * m) c
            (ticks (fun (e : ℚ) (x : ℚ) => ((e + x) / 2, (e + x) / 2))
              ((State.init (0 : ℚ)).setGate true) 3).2) ∧
    runProcessFrame (fun (e : ℚ) (x : ℚ) => ((e + x) / 2, (e + x) / 2))
        ((State.init (0 : ℚ)).setGate true)
        (ProcessData.frames { channels := [[1, 1, 1], [2, 2, 2]] })
      = ((simple_ar_impl.process (fun (e : ℚ) (x : ℚ) => ((e + x) / 2, (e + x) / 2))
            ((State.init (0 : ℚ)).setGate true) { channels := [[1, 1, 1], [2, 2, 2]] }).state,
         (simple_ar_impl.process (fun (e : ℚ) (x : ℚ) => ((e + x) / 2, (e + x) / 2))
            ((State.init (0 : ℚ)).setGate true)
            { channels := [[1, 1, 1], [2, 2, 2]] }).data.frames) :=
  process_eq_ticks_eq_processFrame (fun (e : ℚ) (x : ℚ) => ((e + x) / 2, (e + x) / 2))
    ((State.init (0 : ℚ)).setGate true) { channels := [[1, 1, 1], [2, 2, 2]] } 3
    (Or.inr rfl) (by simp)

/-! ## Steady state of the gate follower -/

/-- C12. Every record reached from the default-constructed record (targetValue
0, lastValue 0, active false, smoothing false) by any sequence of setGate and
tick calls, for any filter, satisfies: if smoothing is false then
|targetValue - lastValue| ≤ 0.0001 and active is true exactly when targetValue
is 1. Hence in steady state the value returned by tick() and the value reported
by getModValue() differ by at most 0.0001, and the activity reported by
isActive() equals the gate held by the last setGate call. -/
theorem runOps_steady_state {σ : Type} (calculateValue : CalculateValue σ) (env : σ)
    (ops : List GateOp)
    (hs : (runOps calculateValue (State.init env) ops).smoothing = false) :
    |(runOps calculateValue (State.init env) ops).targetValue
        - (runOps calculateValue (State.init env) ops).lastValue| ≤ 1 / 10000 ∧
    ((runOps calculateValue (State.init env) ops).active = true ↔
      (runOps calculateValue (State.init env) ops).targetValue = 1) ∧
    |((runOps calculateValue (State.init env) ops).tick calculateValue).2
        - simple_ar_impl.getModValue (runOps calculateValue (State.init env) ops)| ≤ 1 / 10000 ∧
    simple_ar_impl.isActive (runOps calculateValue (State.init env) ops)
      = heldGate false ops := by
  have hinv := runOps_steady calculateValue ops (State.init env)
    (fun _ => by simp [State.init]) hs
  have ht := runOps_targetValue calculateValue ops (State.init env) false
    (by simp [State.init])
  refine ⟨hinv.1, hinv.2, ?_, ?_⟩
  · rw [State.tick_of_not_smoothing calculateValue _ hs]
    exact hinv.1
  · unfold simple_ar_impl.isActive
    cases hg : heldGate false ops
    · rw [hg] at ht
      have hne : ¬ (runOps calculateValue (State.init env) ops).targetValue = 1 := by
        rw [ht]; norm_num
      cases ha : (runOps calculateValue (State.init env) ops).active
      · rfl
      · exact absurd (hinv.2.mp ha) hne
    · rw [hg] at ht
      exact hinv.2.mpr (by simpa using ht)

/-- Witness of C12: the default record after gate-on, two ticks, gate-off and
one tick, with a filter that reaches its input at once; smoothing has stopped
and the gate held is off. -/
theorem runOps_steady_state_witness :
    (runOps (fun (e : Unit) (x : ℚ) => (e, x)) (State.init ())
      [GateOp.setGate true, GateOp.tick, GateOp.tick, GateOp.setGate false,
       GateOp.tick]).smoothing = false ∧
    (|(runOps (fun (e : Unit) (x : ℚ) => (e, x)) (State.init ())
        [GateOp.setGate true, GateOp.tick, GateOp.tick, GateOp.setGate false,
         GateOp.tick]).targetValue
        - (runOps (fun (e : Unit) (x : ℚ) => (e, x)) (State.init ())
        [GateOp.setGate true, GateOp.tick, GateOp.tick, GateOp.setGate false,
         GateOp.tick]).lastValue| ≤ 1 / 10000 ∧
    ((runOps (fun (e : Unit) (x : ℚ) => (e, x)) (State.init ())
        [GateOp.setGate true, GateOp.tick, GateOp.tick, GateOp.setGate false,
         GateOp.tick]).active = true ↔
      (runOps (fun (e : Unit) (x : ℚ) => (e, x)) (State.init ())
        [GateOp.setGate true, GateOp.tick, GateOp.tick, GateOp.setGate false,
         GateOp.tick]).targetValue = 1) ∧
    |((runOps (fun (e : Unit) (x : ℚ) => (e, x)) (State.init ())
        [GateOp.setGate true, GateOp.tick, GateOp.tick, GateOp.setGate false,
         GateOp.tick]).tick (fun (e : Unit) (x : ℚ) => (e, x))).2
        - simple_ar_impl.getModValue (runOps (fun (e : Unit) (x : ℚ) => (e, x)) (State.init ())
        [GateOp.setGate true, GateOp.tick, GateOp.tick, GateOp.setGate false,
         GateOp.tick])| ≤ 1 / 10000 ∧
    simple_ar_impl.isActive (runOps (fun (e : Unit) (x : ℚ) => (e, x)) (State.init ())
        [GateOp.setGate true, GateOp.tick, GateOp.tick, GateOp.setGate false,
         GateOp.tick])
      = heldGate false [GateOp.setGate true, GateOp.tick, GateOp.tick, GateOp.setGate false,
         GateOp.tick]) :=
  ⟨by simp [runOps, State.tick, State.setGate, State.init],
   runOps_steady_state (fun (e : Unit) (x : ℚ) => (e, x)) ()
     [GateOp.setGate true, GateOp.tick, GateOp.tick, GateOp.setGate false, GateOp.tick]
     (by simp [runOps, State.tick, State.setGate, State.init])⟩

end EnvelopeNodes
